import Mathlib

/-!
Shallow embedding of `finder.py` (lipidsaxs): a Bragg-peak finder for 1D
scattering curves.  The pipeline is

  raw curve -> coarse candidate indices (find_peaks_cwt, filtered to a
  q-window, leading zeros trimmed) -> per-candidate local model fits over
  window half-widths 3..9 (lmfit, a black box here, modelled as a function
  parameter returning a (centre, redchi) pair) -> degeneracy removal
  (per-element tolerance-0.01 clustering, mean collapse, np.unique).

Floats are modelled as rationals; numpy arrays as lists; the two external
numeric collaborators (`find_peaks_cwt` and the lmfit fit) as parameters,
since their outputs are opaque numeric data as far as the pipeline logic
is concerned.
-/

set_option maxRecDepth 100000

namespace Lipidsaxs

/-- Python `range(a, b)`: the integers `a, a+1, ..., b-1`. -/
def pyRange (a b : Nat) : List Nat := List.range' a (b - a)

/-- Python slice `l[a:b]` (step 1): negative indices count from the end,
indices are clamped to `[0, len]`, and the result is empty when the
effective start is at or beyond the effective stop. -/
def pySlice {α : Type} (l : List α) (a b : Int) : List α :=
  let n : Int := l.length
  let a' := if a < 0 then max (n + a) 0 else min a n
  let b' := if b < 0 then max (n + b) 0 else min b n
  (l.take b'.toNat).drop a'.toNat

/-- `np.trim_zeros(a, 'f')`: drop the leading run of zero entries
(finder.py line 88, applied to the candidate-index array). -/
def trim_zeros_front (l : List Nat) : List Nat := l.dropWhile (fun n => n == 0)

/-- finder.py lines 84-88: keep the first-pass candidate indices `p` with
`lo_lim < x[p] < hi_lim`, in discovery order, then trim leading zeros.
`fp` models the output of `find_peaks_cwt(y, np.arange(1, sensitivity))`. -/
def second_pass_peaks (x : List ℚ) (fp : List Nat) (lo_lim hi_lim : ℚ) :
    List Nat :=
  trim_zeros_front (fp.filter (fun p =>
    decide (lo_lim < x.getD p 0) && decide (x.getD p 0 < hi_lim)))

/-- finder.py lines 97-98: the fit window `x[int(p)-j : int(p)+j]`,
extracted with Python slice semantics (no bounds check in the source). -/
def x_range (x : List ℚ) (c j : Nat) : List ℚ :=
  pySlice x ((c : Int) - (j : Int)) ((c : Int) + (j : Int))

/-- The type of the lmfit-based `fitting` function (finder.py lines 35-72):
from a fit window `(x_range, y_range)` and the approximate centre `x[p]`
it returns the pair `(fitted_centre, result.redchi)`. -/
abbrev Fitting := List ℚ → List ℚ → ℚ → ℚ × ℚ

/-- finder.py lines 95-100, the inner loop for one candidate `c`: one call
of `fitting` per `j in range(3, 10)`. -/
def inner_fits (fit : Fitting) (x y : List ℚ) (c : Nat) : List (ℚ × ℚ) :=
  (pyRange 3 10).map (fun j => fit (x_range x c j) (x_range y c j) (x.getD c 0))

/-- finder.py lines 91-102: the `fitted_centre` accumulator.
`np.append(fitted_centre, fit)` ravels the `(centre, redchi)` tuple, so
each fit contributes BOTH of its components to the flat array. -/
def fitted_centre (fit : Fitting) (x y : List ℚ) (cands : List Nat) : List ℚ :=
  cands.flatMap (fun c => (inner_fits fit x y c).flatMap (fun r => [r.1, r.2]))

/-- `np.mean` of a list of rationals (0 on the empty list). -/
def mean (l : List ℚ) : ℚ := l.sum / l.length

/-- finder.py lines 107-108: `degen = np.where(np.abs(fc - fc[i]) < 0.01)`,
the list of positions whose value lies within 0.01 of `fc[i]`. -/
def degen (fc : List ℚ) (i : Nat) : List Nat :=
  (List.range fc.length).filter (fun k =>
    decide (|fc.getD k 0 - fc.getD i 0| < 1/100))

/-- finder.py lines 111-115: what iteration `i` of the degeneracy loop
appends to `true_peaks`: `fc[degen]` when `degen` is a singleton, the mean
`np.mean(fc[degen])` when it has more than one member. -/
def emit_at (fc : List ℚ) (i : Nat) : List ℚ :=
  let d := degen fc i
  if d.length = 1 then d.map (fun k => fc.getD k 0)
  else if 1 < d.length then [mean (d.map (fun k => fc.getD k 0))]
  else []

/-- finder.py lines 104-115: the `true_peaks` accumulator before the final
`np.unique` pass. -/
def true_peaks_raw (fc : List ℚ) : List ℚ :=
  (List.range fc.length).flatMap (emit_at fc)

/-- `np.unique`: the sorted (ascending) list of distinct values. -/
def np_unique (l : List ℚ) : List ℚ := l.dedup.insertionSort (· ≤ ·)

/-- finder.py lines 104-118: the full Deduplicator, `np.unique` applied to
the raw emitted values. -/
def true_peaks (fc : List ℚ) : List ℚ := np_unique (true_peaks_raw fc)

/-- finder.py `finder` (lines 75-129), with the file read and the two
numeric collaborators abstracted: `x`/`y` are the two columns of the
table, `fp` the `find_peaks_cwt` output, `fit` the lmfit fit. -/
def finder (fit : Fitting) (x y : List ℚ) (fp : List Nat)
    (lo_lim hi_lim : ℚ) : List ℚ :=
  true_peaks (fitted_centre fit x y (second_pass_peaks x fp lo_lim hi_lim))

/-- Spec-side description of a tolerance cluster (section 4.3 of the spec):
all input centres within absolute distance 0.01 of `c`. -/
def cluster (fc : List ℚ) (c : ℚ) : List ℚ :=
  fc.filter (fun z => decide (|z - c| < 1/100))

/-- Spec-side description of the per-centre emission: the centre itself
for a singleton cluster, the cluster mean otherwise. -/
def emit_value (fc : List ℚ) (c : ℚ) : ℚ :=
  if (cluster fc c).length = 1 then c else mean (cluster fc c)

/-! Helper lemmas bridging the index-based numpy formulation of the
degeneracy loop to the value-based description used by the spec. -/

/-- Selecting the positions of a list that satisfy a predicate on their
values, then reading those positions back, is filtering the list. -/
theorem filter_range_getD (l : List ℚ) (p : ℚ → Bool) :
    ((List.range l.length).filter (fun k => p (l.getD k 0))).map
        (fun k => l.getD k 0) = l.filter p := by
  induction l with
  | nil => rfl
  | cons a t ih =>
    simp only [List.length_cons, List.range_succ_eq_map, List.filter_cons,
      List.filter_map, List.map_cons, List.map_map, Function.comp_def,
      Nat.succ_eq_add_one, List.getD_cons_zero, List.getD_cons_succ]
    cases hpa : p a with
    | true =>
      simp only [hpa, eq_self_iff_true, if_true, List.map_cons,
        List.getD_cons_zero, List.map_map, Function.comp_def,
        Nat.succ_eq_add_one, List.getD_cons_succ, ih]
    | false =>
      simp only [hpa, Bool.false_eq_true, if_false, List.map_map,
        Function.comp_def, Nat.succ_eq_add_one, List.getD_cons_succ, ih]

/-- Reading every position of a list back gives the list. -/
theorem map_getD_range (l : List ℚ) :
    (List.range l.length).map (fun k => l.getD k 0) = l := by
  have h := filter_range_getD l (fun _ => true)
  simpa using h

theorem flatMap_singleton_eq_map (f : Nat → ℚ) (l : List Nat) :
    l.flatMap (fun i => [f i]) = l.map f := by
  induction l with
  | nil => rfl
  | cons a t ih => simp [List.flatMap_cons, ih]

/-- The values sitting at the positions `np.where` finds are exactly the
within-tolerance cluster of `fc[i]`. -/
theorem degen_map_getD (fc : List ℚ) (i : Nat) :
    (degen fc i).map (fun k => fc.getD k 0) = cluster fc (fc.getD i 0) :=
  filter_range_getD fc (fun z => decide (|z - fc.getD i 0| < 1/100))

theorem self_mem_cluster {fc : List ℚ} {c : ℚ} (h : c ∈ fc) :
    c ∈ cluster fc c := by
  simp only [cluster, List.mem_filter, h, true_and, sub_self, abs_zero,
    decide_eq_true_eq]
  norm_num

/-- What the degeneracy loop appends at index `i` is the value-based
emission of `fc[i]`: the centre itself for a singleton cluster, the
cluster mean otherwise. -/
theorem emit_at_eq {fc : List ℚ} {i : Nat} (h : i < fc.length) :
    emit_at fc i = [emit_value fc (fc.getD i 0)] := by
  have hmem : fc.getD i 0 ∈ fc := by
    rw [List.getD_eq_getElem fc 0 h]
    exact List.getElem_mem h
  have hcl : fc.getD i 0 ∈ cluster fc (fc.getD i 0) := self_mem_cluster hmem
  have hlen : (degen fc i).length = (cluster fc (fc.getD i 0)).length := by
    rw [← degen_map_getD fc i, List.length_map]
  unfold emit_at emit_value
  rcases h1 : (cluster fc (fc.getD i 0)).length with _ | n
  · rw [List.length_eq_zero] at h1
    rw [h1] at hcl
    cases hcl
  · cases n with
    | zero =>
      obtain ⟨b, hb⟩ := List.length_eq_one.mp h1
      have hbc : b = fc.getD i 0 := by
        rw [hb] at hcl
        exact (by simpa using hcl : fc.getD i 0 = b).symm
      simp only [hlen, h1, if_pos rfl, degen_map_getD, hb, hbc,
        List.map_cons]
      rfl
    | succ m =>
      have hne : ¬ (degen fc i).length = 1 := by omega
      have hgt : 1 < (degen fc i).length := by omega
      simp only [hlen, h1, if_neg, hne, if_pos hgt, degen_map_getD]
      simp [hlen, h1]

/-- The raw emitted list is the input mapped through the value-based
emission: one value per input centre, in input order. -/
theorem true_peaks_raw_eq_map (fc : List ℚ) :
    true_peaks_raw fc = fc.map (emit_value fc) := by
  unfold true_peaks_raw
  have h1 : (List.range fc.length).flatMap (emit_at fc)
      = (List.range fc.length).flatMap
          (fun i => [emit_value fc (fc.getD i 0)]) := by
    unfold List.flatMap
    refine congrArg List.flatten (List.map_congr_left ?_)
    intro i hi
    exact emit_at_eq (List.mem_range.mp hi)
  have h2 : (fun i => emit_value fc (fc.getD i 0))
      = emit_value fc ∘ (fun k => fc.getD k 0) := rfl
  rw [h1, flatMap_singleton_eq_map, h2, ← List.map_map, map_getD_range]

theorem length_true_peaks_raw (fc : List ℚ) :
    (true_peaks_raw fc).length = fc.length := by
  rw [true_peaks_raw_eq_map, List.length_map]

theorem np_unique_perm_dedup (l : List ℚ) : List.Perm (np_unique l) l.dedup :=
  List.perm_insertionSort (· ≤ ·) l.dedup

theorem np_unique_sorted_le (l : List ℚ) : (np_unique l).Sorted (· ≤ ·) :=
  List.sorted_insertionSort (· ≤ ·) l.dedup

theorem np_unique_nodup (l : List ℚ) : (np_unique l).Nodup :=
  ((np_unique_perm_dedup l).nodup_iff).mpr (List.nodup_dedup l)

theorem np_unique_sorted_lt (l : List ℚ) : (np_unique l).Sorted (· < ·) := by
  have hle : (np_unique l).Pairwise (· ≤ ·) := np_unique_sorted_le l
  have hne : (np_unique l).Pairwise (· ≠ ·) := np_unique_nodup l
  exact List.Pairwise.imp₂ (fun a b h1 h2 => lt_of_le_of_ne h1 h2) hle hne

theorem np_unique_length_le (l : List ℚ) : (np_unique l).length ≤ l.length := by
  rw [(np_unique_perm_dedup l).length_eq]
  exact (List.dedup_sublist l).length_le

theorem mem_np_unique {l : List ℚ} {v : ℚ} (h : v ∈ np_unique l) : v ∈ l :=
  (List.dedup_sublist l).mem ((np_unique_perm_dedup l).mem_iff.mp h)

theorem np_unique_eq_of_perm {l₁ l₂ : List ℚ} (h : List.Perm l₁ l₂) :
    np_unique l₁ = np_unique l₂ := by
  refine List.eq_of_perm_of_sorted ?_ (np_unique_sorted_le l₁)
    (np_unique_sorted_le l₂)
  exact ((np_unique_perm_dedup l₁).trans h.dedup).trans
    (np_unique_perm_dedup l₂).symm

/-- Tolerance clusters are preserved (as permutations) under permutation
of the centre list, so the value-based emission is unchanged. -/
theorem emit_value_eq_of_perm {fc fc' : List ℚ} (h : List.Perm fc fc') :
    emit_value fc = emit_value fc' := by
  funext c
  have hcl : List.Perm (cluster fc c) (cluster fc' c) :=
    h.filter (fun z => decide (|z - c| < 1/100))
  unfold emit_value mean
  rw [hcl.length_eq, hcl.sum_eq]

/-- When all distinct values of a duplicate-free list are at least 0.01
apart, every tolerance cluster is the singleton of its centre. -/
theorem cluster_eq_singleton {l : List ℚ} {c : ℚ} (hnd : l.Nodup)
    (hsep : ∀ a ∈ l, ∀ b ∈ l, a ≠ b → 1/100 ≤ |a - b|) (hc : c ∈ l) :
    cluster l c = [c] := by
  have hcongr : ∀ z ∈ l, (decide (|z - c| < 1/100)) = (z == c) := by
    intro z hz
    by_cases hzc : z = c
    · subst hzc
      simp only [sub_self, abs_zero, beq_self_eq_true, decide_eq_true_eq]
      norm_num
    · have h1 : 1/100 ≤ |z - c| := hsep z hz c hc hzc
      have h2 : ¬ (|z - c| < 1/100) := not_lt.mpr h1
      rw [decide_eq_false h2]
      exact (beq_eq_false_iff_ne.mpr hzc).symm
  unfold cluster
  rw [List.filter_congr hcongr, List.filter_beq l c,
    List.count_eq_one_of_mem hnd hc, List.replicate_one]

/-- On a strictly-sorted list whose values are pairwise at least 0.01
apart, the Deduplicator is the identity. -/
theorem true_peaks_eq_self {l : List ℚ} (hs : l.Sorted (· < ·))
    (hsep : ∀ a ∈ l, ∀ b ∈ l, a ≠ b → 1/100 ≤ |a - b|) :
    true_peaks l = l := by
  have hnd : l.Nodup := hs.nodup
  have hemit : ∀ c ∈ l, emit_value l c = c := by
    intro c hc
    unfold emit_value
    rw [cluster_eq_singleton hnd hsep hc]
    simp
  have hraw : true_peaks_raw l = l := by
    rw [true_peaks_raw_eq_map]
    have : l.map (emit_value l) = l.map id := List.map_congr_left hemit
    rw [this, List.map_id]
  unfold true_peaks np_unique
  rw [hraw, List.dedup_eq_self.mpr hnd]
  have hsle : l.Sorted (· ≤ ·) := hs.imp (fun h => le_of_lt h)
  exact hsle.insertionSort_eq

/-! Claim theorems. -/

/-- C1: the claim says the Deduplicator input is the flattened list of
FitResult centre values only, redchi never entering it or the returned
PeakSet.  The code violates this: `np.append(fitted_centre, fit)` ravels
the `(centre, redchi)` tuple, so every redchi lands in the dedup input.
Evaluated here at a fit that always returns centre 1 and redchi 42 for
the single candidate at index 5: the flat array interleaves the redchi
values and the returned PeakSet is `[1, 42]`, containing the redchi. -/
theorem c1_redchi_enters_dedup_input :
    fitted_centre (fun _ _ _ => (1, 42)) ((List.range 12).map (fun n => (n : ℚ)))
        ((List.range 12).map (fun n => (n : ℚ))) [5]
      = [1, 42, 1, 42, 1, 42, 1, 42, 1, 42, 1, 42, 1, 42] ∧
    finder (fun _ _ _ => (1, 42)) ((List.range 12).map (fun n => (n : ℚ)))
        ((List.range 12).map (fun n => (n : ℚ))) [5] 0 100 = [1, 42] := by
  constructor <;> with_unfolding_all decide

/-- C2 counterexample: for the candidate at index 1 with half-width 3
(so `1 - 3 < 0`), no WINDOW_OUT_OF_BOUNDS error is surfaced: the Python
slice silently yields an empty window and the fitter is invoked anyway,
on empty windows for half-widths 3..6 and on wrapped garbage windows
(taken from the far end of the curve) of lengths 2, 4, 6 for
half-widths 7, 8, 9.  The probe fit reports each window's length. -/
theorem c2_counterexample :
    x_range ((List.range 12).map (fun n => (n : ℚ))) 1 3 = [] ∧
    inner_fits (fun xr _ _ => ((xr.length : ℚ), (xr.length : ℚ)))
        ((List.range 12).map (fun n => (n : ℚ)))
        ((List.range 12).map (fun n => (n : ℚ))) 1
      = [(0, 0), (0, 0), (0, 0), (0, 0), (2, 2), (4, 4), (6, 6)] := by
  constructor <;> decide

/-- C2 amended: the pipeline performs no window bounds check.  A
candidate `c` with `c < w` on a curve of length at least `2*w` gets a
silently empty fit window (negative-index slice semantics), and the
fitter is still invoked once per each of the 7 half-widths; no
WINDOW_OUT_OF_BOUNDS error exists anywhere in the pipeline. -/
theorem c2_window_oob_silent (x y : List ℚ) (fit : Fitting) (c w : Nat)
    (h1 : c < w) (h2 : 2 * w ≤ x.length) :
    x_range x c w = [] ∧ (inner_fits fit x y c).length = 7 := by
  constructor
  · simp only [x_range, pySlice]
    have hlt : ((c : Int) - (w : Int)) < 0 := by omega
    have hge : ¬ (((c : Int) + (w : Int)) < 0) := by omega
    rw [if_pos hlt, if_neg hge]
    apply List.drop_eq_nil_of_le
    rw [List.length_take]
    omega
  · rfl

theorem c2_window_oob_silent_witness :
    1 < 3 ∧ 2 * 3 ≤ (List.replicate 6 (0 : ℚ)).length ∧
    (x_range (List.replicate 6 (0 : ℚ)) 1 3 = [] ∧
      (inner_fits (fun _ _ _ => (0, 0)) (List.replicate 6 (0 : ℚ)) [] 1).length
        = 7) :=
  ⟨by decide, by decide,
    c2_window_oob_silent (List.replicate 6 (0 : ℚ)) [] (fun _ _ _ => (0, 0))
      1 3 (by decide) (by decide)⟩

/-- C3 counterexample: the Deduplicator is not idempotent.  On the
chained input `[0, 0.009, 0.018]` one pass yields
`[0.0045, 0.009, 0.0135]`, whose members are still within 0.01 of each
other, and a second pass collapses them to `[0.009]`. -/
theorem c3_counterexample :
    true_peaks (true_peaks [0, 9/1000, 18/1000])
      ≠ true_peaks [0, 9/1000, 18/1000] := by with_unfolding_all decide

/-- C3 amended: the Deduplicator is idempotent on every input whose
one-pass output has no two distinct values within 0.01 of each other;
chained clusters (as in the counterexample) can violate this premise,
and then a second pass collapses further. -/
theorem c3_dedup_idempotent_when_separated (xs : List ℚ)
    (h : ∀ a ∈ true_peaks xs, ∀ b ∈ true_peaks xs, a ≠ b → 1/100 ≤ |a - b|) :
    true_peaks (true_peaks xs) = true_peaks xs :=
  true_peaks_eq_self (np_unique_sorted_lt _) h

theorem c3_dedup_idempotent_when_separated_witness :
    (∀ a ∈ true_peaks [(0 : ℚ), 1], ∀ b ∈ true_peaks [(0 : ℚ), 1],
      a ≠ b → 1/100 ≤ |a - b|) ∧
    true_peaks (true_peaks [(0 : ℚ), 1]) = true_peaks [(0 : ℚ), 1] :=
  ⟨by with_unfolding_all decide,
    c3_dedup_idempotent_when_separated _ (by with_unfolding_all decide)⟩

/-- C4: every candidate index returned by the detector has its q value
strictly between lo_lim and hi_lim: the second-pass filter keeps only
such indices and the leading-zero trim only removes elements. -/
theorem c4_detector_filter_invariant (x : List ℚ) (fp : List Nat)
    (lo_lim hi_lim : ℚ) (c : Nat)
    (h : c ∈ second_pass_peaks x fp lo_lim hi_lim) :
    lo_lim < x.getD c 0 ∧ x.getD c 0 < hi_lim := by
  unfold second_pass_peaks trim_zeros_front at h
  have h2 := List.Sublist.mem h (List.dropWhile_sublist _)
  have h3 := (List.mem_filter.mp h2).2
  simp only [Bool.and_eq_true, decide_eq_true_eq] at h3
  exact h3

theorem c4_detector_filter_invariant_witness :
    1 ∈ second_pass_peaks [0, 2, 5] [1] 1 3 ∧
    ((1 : ℚ) < List.getD ([0, 2, 5] : List ℚ) 1 0 ∧
      List.getD ([0, 2, 5] : List ℚ) 1 0 < 3) :=
  ⟨by decide, c4_detector_filter_invariant [0, 2, 5] [1] 1 3 1 (by decide)⟩

/-- C5: for each input position `i`, the degeneracy loop forms the
cluster of all input centres within absolute distance 0.01 of `fc[i]`
(the centre itself included), and emits the centre itself when the
cluster is a singleton and the cluster's arithmetic mean when it has
more than one member, ahead of the final `np.unique` pass. -/
theorem c5_dedup_cluster_emission (fc : List ℚ) (i : Nat)
    (h : i < fc.length) :
    fc.getD i 0 ∈ cluster fc (fc.getD i 0) ∧
    emit_at fc i = [if (cluster fc (fc.getD i 0)).length = 1
      then fc.getD i 0 else mean (cluster fc (fc.getD i 0))] := by
  have hmem : fc.getD i 0 ∈ fc := by
    rw [List.getD_eq_getElem fc 0 h]
    exact List.getElem_mem h
  exact ⟨self_mem_cluster hmem, emit_at_eq h⟩

theorem c5_dedup_cluster_emission_witness :
    0 < List.length ([0, 9/1000, 1] : List ℚ) ∧
    ((0 : ℚ) ∈ cluster [0, 9/1000, 1] 0 ∧
      emit_at [0, 9/1000, 1] 0
        = [if (cluster ([0, 9/1000, 1] : List ℚ) 0).length = 1 then (0 : ℚ)
            else mean (cluster [0, 9/1000, 1] 0)]) :=
  ⟨by decide, c5_dedup_cluster_emission [0, 9/1000, 1] 0 (by decide)⟩

/-- C6: the Deduplicator's output is no longer than its input, is
strictly ascending, and each output value is an original centre or the
mean of a within-0.01 cluster of original centres. -/
theorem c6_dedup_output_guarantees (fc : List ℚ) :
    (true_peaks fc).length ≤ fc.length ∧
    (true_peaks fc).Sorted (· < ·) ∧
    ∀ v ∈ true_peaks fc, v ∈ fc ∨
      ∃ c ∈ fc, 1 < (cluster fc c).length ∧ v = mean (cluster fc c) := by
  refine ⟨?_, np_unique_sorted_lt _, ?_⟩
  · calc (true_peaks fc).length ≤ (true_peaks_raw fc).length :=
        np_unique_length_le _
      _ = fc.length := length_true_peaks_raw fc
  · intro v hv
    have h1 : v ∈ true_peaks_raw fc := mem_np_unique hv
    rw [true_peaks_raw_eq_map] at h1
    obtain ⟨c, hc, hvc⟩ := List.mem_map.mp h1
    by_cases hone : (cluster fc c).length = 1
    · left
      rw [← hvc]
      unfold emit_value
      rw [if_pos hone]
      exact hc
    · right
      refine ⟨c, hc, ?_, ?_⟩
      · have hpos : 0 < (cluster fc c).length :=
          List.length_pos.mpr (List.ne_nil_of_mem (self_mem_cluster hc))
        omega
      · rw [← hvc]
        unfold emit_value
        rw [if_neg hone]

theorem c6_dedup_output_guarantees_witness :
    (9/2000 : ℚ) ∈ true_peaks [0, 9/1000, 18/1000] ∧
    ((9/2000 : ℚ) ∈ ([0, 9/1000, 18/1000] : List ℚ) ∨
      ∃ c ∈ ([0, 9/1000, 18/1000] : List ℚ),
        1 < (cluster [0, 9/1000, 18/1000] c).length ∧
        (9/2000 : ℚ) = mean (cluster [0, 9/1000, 18/1000] c)) :=
  ⟨by with_unfolding_all decide,
    (c6_dedup_output_guarantees [0, 9/1000, 18/1000]).2.2 _
      (by with_unfolding_all decide)⟩

/-- C7: for each candidate, the fitter is invoked exactly 7 times, once
per window half-width, the half-widths being exactly 3, 4, 5, 6, 7, 8,
9, each invocation producing one FitResult. -/
theorem c7_seven_fits_per_candidate (fit : Fitting) (x y : List ℚ) (c : Nat) :
    inner_fits fit x y c
      = [fit (x_range x c 3) (x_range y c 3) (x.getD c 0),
         fit (x_range x c 4) (x_range y c 4) (x.getD c 0),
         fit (x_range x c 5) (x_range y c 5) (x.getD c 0),
         fit (x_range x c 6) (x_range y c 6) (x.getD c 0),
         fit (x_range x c 7) (x_range y c 7) (x.getD c 0),
         fit (x_range x c 8) (x_range y c 8) (x.getD c 0),
         fit (x_range x c 9) (x_range y c 9) (x.getD c 0)] ∧
    (inner_fits fit x y c).length = 7 := by
  constructor
  · rfl
  · rfl

/-- C8: when the first candidate index passing the q-window filter is
sample index 0, the leading-zero trim silently removes it from the
detector output, although its q value is genuinely in-window. -/
theorem c8_leading_zero_candidate_dropped (x : List ℚ) (fp : List Nat)
    (lo_lim hi_lim : ℚ) (t : List Nat)
    (hf : fp.filter (fun p =>
        decide (lo_lim < x.getD p 0) && decide (x.getD p 0 < hi_lim))
      = 0 :: t)
    (h0 : 0 ∉ t) :
    (lo_lim < x.getD 0 0 ∧ x.getD 0 0 < hi_lim) ∧
    second_pass_peaks x fp lo_lim hi_lim = t ∧
    0 ∉ second_pass_peaks x fp lo_lim hi_lim := by
  have hmem : (0 : Nat) ∈ fp.filter (fun p =>
      decide (lo_lim < x.getD p 0) && decide (x.getD p 0 < hi_lim)) := by
    rw [hf]
    exact List.mem_cons_self 0 t
  have hq := (List.mem_filter.mp hmem).2
  simp only [Bool.and_eq_true, decide_eq_true_eq] at hq
  have hsp : second_pass_peaks x fp lo_lim hi_lim = t := by
    unfold second_pass_peaks trim_zeros_front
    rw [hf, List.dropWhile_cons]
    simp only [beq_self_eq_true, if_true]
    cases t with
    | nil => rfl
    | cons b t' =>
      have hb : ¬ (b == 0) = true := by
        intro hb
        exact h0 (by
          have : b = 0 := by simpa using hb
          rw [← this]
          exact List.mem_cons_self b t')
      rw [List.dropWhile_cons, if_neg hb]
  exact ⟨hq, hsp, fun hc => h0 (hsp ▸ hc)⟩

theorem c8_leading_zero_candidate_dropped_witness :
    (([0] : List Nat).filter (fun p =>
        decide ((0 : ℚ) < List.getD ([1/2, 2, 3] : List ℚ) p 0) &&
        decide (List.getD ([1/2, 2, 3] : List ℚ) p 0 < 1)) = 0 :: []) ∧
    (0 : Nat) ∉ ([] : List Nat) ∧
    (((0 : ℚ) < List.getD ([1/2, 2, 3] : List ℚ) 0 0 ∧
        List.getD ([1/2, 2, 3] : List ℚ) 0 0 < 1) ∧
      second_pass_peaks [1/2, 2, 3] [0] 0 1 = [] ∧
      0 ∉ second_pass_peaks [1/2, 2, 3] [0] 0 1) :=
  ⟨by with_unfolding_all decide, by decide,
    c8_leading_zero_candidate_dropped [1/2, 2, 3] [0] 0 1 []
      (by with_unfolding_all decide) (by decide)⟩

/-- C9: the Deduplicator is order-independent: permuting the input list
of centres leaves the output sequence unchanged, because each cluster
is determined by set membership and collapsed by mean, and the final
`np.unique` pass sorts. -/
theorem c9_dedup_order_independent (xs ys : List ℚ)
    (h : List.Perm xs ys) : true_peaks xs = true_peaks ys := by
  have hraw : List.Perm (true_peaks_raw xs) (true_peaks_raw ys) := by
    rw [true_peaks_raw_eq_map, true_peaks_raw_eq_map,
      emit_value_eq_of_perm h]
    exact h.map (emit_value ys)
  unfold true_peaks
  exact np_unique_eq_of_perm hraw

theorem c9_dedup_order_independent_witness :
    List.Perm [(1 : ℚ), 2] [2, 1] ∧
    true_peaks [(1 : ℚ), 2] = true_peaks [2, 1] :=
  ⟨by decide, c9_dedup_order_independent [1, 2] [2, 1] (by decide)⟩

/-- C10: when the detector returns no candidate inside the q-window,
the pipeline does not fail: the fitting and deduplication stages run on
empty data and `finder` returns an empty PeakSet. -/
theorem c10_empty_candidates_empty_peakset (fit : Fitting) (x y : List ℚ)
    (fp : List Nat) (lo_lim hi_lim : ℚ)
    (h : second_pass_peaks x fp lo_lim hi_lim = []) :
    finder fit x y fp lo_lim hi_lim = [] := by
  unfold finder
  rw [h]
  rfl

theorem c10_empty_candidates_empty_peakset_witness :
    second_pass_peaks [5] [0] 0 1 = [] ∧
    finder (fun _ _ _ => ((0 : ℚ), (0 : ℚ))) [5] [5] [0] 0 1 = [] :=
  ⟨by decide,
    c10_empty_candidates_empty_peakset (fun _ _ _ => ((0 : ℚ), (0 : ℚ)))
      [5] [5] [0] 0 1 (by decide)⟩

end Lipidsaxs
